import Mathlib

/-!
Shallow embedding of the resumable batch job engine of `main.py`: the
job-store recovery rule, the outcome classification, the output-field
writes, case-id selection and range filtering, and the bounded-concurrency
scheduler loop, together with theorems settling the specification claims.

Conventions of the embedding:
* The worksheet is a `Grid : Nat → Nat → Option String` (1-based rows and
  columns, `none` for an empty cell, matching openpyxl's `None`).
* Python's `str(cell.value)` on a possibly-`None` cell is `pyStr`
  (`str(None) = "None"`).
* Status strings are the code's literals: `"pending"`, `"running"`,
  `"completed"`, `"p-error"` (the spec's `partial_error`), `"error"`.
* Wall-clock timestamps are opaque strings supplied by oracles.
* The uncaught Python `TypeError` arising from an `int`/`str` comparison
  is modelled as `Except.error ()`.
-/

deriving instance DecidableEq for Except

namespace BatchEngine

/-- Status column headers (`STATUS_COL_HEADERS` in `main.py`). -/
def STATUS_COL_HEADERS : List String := ["Status", "Start Time", "End Time", "Output"]

/-- Worker-slot count (`find_available_cores`): total cores minus two, at least one. -/
def find_available_cores (total : Nat) : Nat := max 1 (total - 2)

/-- Column-index record returned by `ensure_status_columns`. -/
structure StatusCols where
  status : Nat
  start_time : Nat
  end_time : Nat
  output : Nat
  next_after_status : Nat
deriving Repr, DecidableEq

/-- Column layout computed by `ensure_status_columns(ws, start_col)`. -/
def ensure_status_columns (start_col : Nat) : StatusCols :=
  { status := start_col
    start_time := start_col + 1
    end_time := start_col + 2
    output := start_col + 3
    next_after_status := start_col + STATUS_COL_HEADERS.length }

/-- Python `str` applied to a possibly-`None` cell value. -/
def pyStr : Option String → String
  | some v => v
  | none => "None"

/-- The ASCII whitespace stripped by Python `str.strip()`. -/
def pyIsSpace (c : Char) : Bool :=
  c = ' ' || c = '\t' || c = '\n' || c = '\r' || c = '\x0b' || c = '\x0c'

/-- Python `str.lower()` on one ASCII character. -/
def pyToLowerChar (c : Char) : Char :=
  if 'A' ≤ c && c ≤ 'Z' then Char.ofNat (c.toNat + 32) else c

/-- Python `str.lower()`, modelled structurally over the character list. -/
def pyLower (s : String) : String := ⟨s.data.map pyToLowerChar⟩

/-- Python `str.strip()`: drop whitespace from both ends. -/
def pyStrip (s : String) : String :=
  ⟨((s.data.dropWhile pyIsSpace).reverse.dropWhile pyIsSpace).reverse⟩

/-- The test `str(value).strip().lower() == "completed"` of `main.py`. -/
def isCompletedStr (s : String) : Bool := pyLower (pyStrip s) == "completed"

/-- The test `str(value).strip().lower() == "pending"` of `main.py`. -/
def isPendingStr (s : String) : Bool := pyLower (pyStrip s) == "pending"

/-- The worksheet: row and column index to optional cell content. -/
abbrev Grid := Nat → Nat → Option String

/-- Assignment `ws.cell(row=r, column=c).value = v`. -/
def setCell (g : Grid) (r c : Nat) (v : String) : Grid :=
  fun r' c' => if r' = r ∧ c' = c then some v else g r' c'

/-- The loop body of `reset_running_on_resume`: every data row whose
status cell is not `completed` is overwritten with `pending`. -/
def reset_grid (status_col : Nat) (rowNums : List Nat) (g : Grid) : Grid :=
  rowNums.foldl
    (fun g r =>
      if isCompletedStr (pyStr (g r status_col)) then g
      else setCell g r status_col "pending") g

/-- The data-row numbers of a sheet with `n` rows below the header:
`2, 3, ..., n + 1` (openpyxl `iter_rows(min_row=2)`). -/
def sheet_rows (n : Nat) : List Nat := List.range' 2 n

/-- Python `str.split(sep)` for a one-character separator, on character
lists: every separator occurrence ends a field, fields may be empty. -/
def splitOnChar (sep : Char) : List Char → List (List Char)
  | [] => [[]]
  | c :: cs =>
    let r := splitOnChar sep cs
    if c = sep then [] :: r
    else
      match r with
      | [] => [[c]]
      | h :: t => (c :: h) :: t

/-- The call `full_output.split(chr 9)` of `main.py`. -/
def pySplitTab (s : String) : List String :=
  (splitOnChar '\t' s.data).map (fun l => ⟨l⟩)

/-- The `for field_idx, field in enumerate(output_fields)` loop of `main`:
field `i` is paired with column `base + i`. -/
def writes_fields : Nat → List String → List (Nat × String)
  | _, [] => []
  | base, f :: fs => (base, f) :: writes_fields (base + 1) fs

/-- The output-writing branch of `main` (steps 4.5.4.2): a non-empty
`full_output` is split on tabs and written starting at `status_col + 3`;
an empty one writes a single empty value at `status_col + 3`. -/
def output_writes (status_col : Nat) (full_output : String) : List (Nat × String) :=
  if full_output ≠ "" then writes_fields (status_col + 3) (pySplitTab full_output)
  else [(status_col + 3, "")]

/-- Apply a list of `(column, value)` cell writes to one row of the grid. -/
def applyRowWrites (g : Grid) (r : Nat) (ws : List (Nat × String)) : Grid :=
  ws.foldl (fun g cv => setCell g r cv.1 cv.2) g

/-- Possible outcomes of `subprocess.run` inside `run_exe_on_batch`. -/
inductive ExeOutcome where
  | success
  | calledProcessError (returncode : Int)
  | otherError (msg : String)
deriving Repr, DecidableEq

/-- `run_exe_on_batch`: maps the process outcome to `(success, error_message)`. -/
def run_exe_on_batch : ExeOutcome → Bool × String
  | .success => (true, "")
  | .calledProcessError rc => (false, "Process failed with exit code " ++ toString rc)
  | .otherError m => (false, "Unexpected error: " ++ m)

/-- The tuple returned by `process_batch`, with named fields. -/
structure BatchResult where
  row_idx : Nat
  status : String
  start_time : String
  end_time : String
  output : String
  error_msg : String
deriving Repr, DecidableEq

/-- The classification performed by `process_batch` after the program ran:
timestamps and the artifact line are supplied as inputs, the returned
status/output/error message follow the four-way branch of the source. -/
def process_batch_result (row_idx : Nat) (exe : ExeOutcome) (file_exists : Bool)
    (output_line : String) (startT endT : String) : BatchResult :=
  let res := run_exe_on_batch exe
  if res.1 then
    if file_exists then
      { row_idx := row_idx, status := "completed", start_time := startT, end_time := endT
        output := output_line, error_msg := "" }
    else
      { row_idx := row_idx, status := "error", start_time := startT, end_time := endT
        output := "", error_msg := "No output file found after successful execution" }
  else
    if file_exists then
      { row_idx := row_idx, status := "p-error", start_time := startT, end_time := endT
        output := output_line, error_msg := res.2 }
    else
      { row_idx := row_idx, status := "error", start_time := startT, end_time := endT
        output := "", error_msg := res.2 }

/-- The artifact file name built by `read_output_file`. -/
def output_filename (case_id : String) : String := "Output" ++ case_id ++ ".txt"

/-- The list comprehension building `batch_inputs` for one row: the first
`input_col_count` cells, `None` replaced by the empty string. -/
def mk_batch_inputs (input_col_count : Nat) (g : Grid) (r : Nat) : List String :=
  (List.range input_col_count).map (fun j =>
    match g r (j + 1) with
    | some v => v
    | none => "")

/-- The case-id selection expression of `main.py`:
`batch_inputs[11] if len(batch_inputs) > 11 and batch_inputs[11] else "UNKNOWN_" + row`. -/
def effective_case_id (row_idx : Nat) (batch_inputs : List String) : String :=
  if 11 < batch_inputs.length ∧ batch_inputs.getD 11 "" ≠ "" then batch_inputs.getD 11 ""
  else "UNKNOWN_" ++ toString row_idx

/-- Python `str.isdigit` restricted to ASCII content. -/
def pyIsDigit (s : String) : Bool := !s.data.isEmpty && s.data.all Char.isDigit

/-- Python `int(s)` on a digit string (the fold of `String.toNat?`). -/
def pyToNat (s : String) : Nat :=
  s.data.foldl (fun n c => n * 10 + (c.toNat - '0'.toNat)) 0

/-- A Python value participating in the range comparison: an `int` obtained
from a digit string, or the original `str`. -/
inductive PyVal where
  | int (n : Nat)
  | str (s : String)
deriving Repr, DecidableEq

/-- The conversion `int(s) if s.isdigit() else s`. -/
def pyParse (s : String) : PyVal :=
  if pyIsDigit s then .int (pyToNat s) else .str s

/-- Python `<=` on character sequences: lexicographic by code point. -/
def pyCharListLe : List Char → List Char → Bool
  | [], _ => true
  | _ :: _, [] => false
  | a :: as, b :: bs =>
    if a.toNat < b.toNat then true
    else if b.toNat < a.toNat then false
    else pyCharListLe as bs

/-- Python `<=` on strings. -/
def pyStrLe (a b : String) : Bool := pyCharListLe a.data b.data

/-- Python `<=` on the two value kinds; comparing an `int` with a `str`
raises `TypeError`, modelled as `Except.error ()`. -/
def pyLe : PyVal → PyVal → Except Unit Bool
  | .int a, .int b => .ok (decide (a ≤ b))
  | .str a, .str b => .ok (pyStrLe a b)
  | _, _ => .error ()

/-- The chained comparison `a <= b <= c` with Python's short-circuit:
`b <= c` is evaluated only when `a <= b` held. -/
def pyChainedLe (a b c : PyVal) : Except Unit Bool :=
  match pyLe a b with
  | .error e => .error e
  | .ok x => if x then pyLe b c else .ok false

/-- The inclusion test `start_id <= case_id <= end_id` of `main` after the
per-value digit conversion.  The surrounding `try` catches only
`ValueError`/`AttributeError`, neither of which can occur for string
inputs, so a `TypeError` from a mixed comparison propagates uncaught. -/
def include_case (range : String × String) (case_id_str : String) : Except Unit Bool :=
  pyChainedLe (pyParse range.1) (pyParse case_id_str) (pyParse range.2)

/-- Inclusion test as the claim words it: numeric when the case id and both
bounds all parse as integers, lexicographic on strings otherwise. -/
def include_case_claim (range : String × String) (case_id_str : String) : Bool :=
  if pyIsDigit range.1 && pyIsDigit range.2 && pyIsDigit case_id_str then
    decide (pyToNat range.1 ≤ pyToNat case_id_str ∧ pyToNat case_id_str ≤ pyToNat range.2)
  else
    pyStrLe range.1 case_id_str && pyStrLe case_id_str range.2

/-- The batch-building loop of `main` (steps 3.2 and 3.3): each data row
yields its inputs, rows excluded by the case-id range are dropped, and an
uncaught `TypeError` from the comparison aborts the whole construction. -/
def mk_batches (input_col_count : Nat) (range? : Option (String × String)) (g : Grid) :
    List Nat → Except Unit (List (Nat × List String))
  | [] => .ok []
  | r :: rest =>
    let bi := mk_batch_inputs input_col_count g r
    let incE : Except Unit Bool :=
      match range? with
      | none => .ok true
      | some rg => include_case rg (effective_case_id r bi)
    match incE with
    | .error e => .error e
    | .ok inc =>
      match mk_batches input_col_count range? g rest with
      | .error e => .error e
      | .ok tl => .ok (if inc then (r, bi) :: tl else tl)

/-- Step 4.1 of `main`: keep the batches whose status cell reads `pending`. -/
def pending_batches_of (g : Grid) (status_col : Nat) (batches : List (Nat × List String)) :
    List (Nat × List String) :=
  batches.filter (fun rb => isPendingStr (pyStr (g rb.1 status_col)))

/-- What the control loop observes about one finished future: either
`fut.result()` returned the `process_batch` tuple (only its
status/end-time/output components matter to the loop), or it raised. -/
inductive CompletionResult where
  | raised
  | normal (status endTime full_output : String)
deriving Repr, DecidableEq

/-- True when the completion delivered a result instead of raising. -/
def CompletionResult.isNormal : CompletionResult → Bool
  | .raised => false
  | .normal _ _ _ => true

/-- The mutable state of the scheduling loop in `main`:
the worksheet, the `next_to_submit` cursor, the rows tracked in `futures`,
and counters for processed completions and started executions. -/
structure EngineState where
  grid : Grid
  nextToSubmit : Nat
  inFlight : List Nat
  doneCount : Nat
  execCount : Nat

/-- Submission of `pending_batches[next_to_submit]` (steps 4.4.1-4.4.5 and
4.5.5.1-4.5.5.5): mark the row `running`, record its start time, hand the
batch to the pool and advance the cursor.  Out of range, nothing happens
(the source guards every call with a cursor check). -/
def submit_next (status_col : Nat) (pending : List (Nat × List String)) (t : String)
    (s : EngineState) : EngineState :=
  match pending.get? s.nextToSubmit with
  | none => s
  | some rb =>
    { grid := setCell (setCell s.grid rb.1 status_col "running") rb.1 (status_col + 1) t
      nextToSubmit := s.nextToSubmit + 1
      inFlight := rb.1 :: s.inFlight
      doneCount := s.doneCount
      execCount := s.execCount + 1 }

/-- The exception handler of step 4.5.3.2: the row is marked `error`, the
future is dropped, and the handler `continue`s (no further writes, no
replacement submission). -/
def reconcile_raised (status_col : Nat) (row : Nat) (s : EngineState) : EngineState :=
  { grid := setCell s.grid row status_col "error"
    nextToSubmit := s.nextToSubmit
    inFlight := s.inFlight.erase row
    doneCount := s.doneCount + 1
    execCount := s.execCount }

/-- Steps 4.5.4.1-4.5.4.4 for a delivered result: write status and end
time, write the split output line, drop the future. -/
def reconcile_normal (status_col : Nat) (row : Nat) (st en out : String)
    (s : EngineState) : EngineState :=
  { grid := applyRowWrites (setCell (setCell s.grid row status_col st) row (status_col + 2) en)
      row (output_writes status_col out)
    nextToSubmit := s.nextToSubmit
    inFlight := s.inFlight.erase row
    doneCount := s.doneCount + 1
    execCount := s.execCount }

/-- Handling of one completed future (steps 4.5.3-4.5.5).  When
`fut.result()` raised, the row is marked `error` and the handler
`continue`s, skipping the submission step.  Otherwise status, end time and
the split output line are written, and one more batch is submitted while
the cursor has batches left.  A row not in `futures` cannot complete; such
an event leaves the state unchanged. -/
def process_completion (status_col : Nat) (pending : List (Nat × List String)) (t : String)
    (row : Nat) (res : CompletionResult) (s : EngineState) : EngineState :=
  if row ∈ s.inFlight then
    match res with
    | .raised => reconcile_raised status_col row s
    | .normal st en out =>
      let s1 := reconcile_normal status_col row st en out s
      if s.nextToSubmit < pending.length then submit_next status_col pending t s1 else s1
  else s

/-- `k` iterations of the initial-submission loop (step 4.4). -/
def init_submits (status_col : Nat) (pending : List (Nat × List String)) (times : Nat → String) :
    Nat → EngineState → EngineState
  | 0, s => s
  | Nat.succ k, s =>
    init_submits status_col pending times k (submit_next status_col pending (times s.nextToSubmit) s)

/-- The loop state right before step 4.4 of `main`. -/
def init_state (g : Grid) : EngineState :=
  { grid := g, nextToSubmit := 0, inFlight := [], doneCount := 0, execCount := 0 }

/-- The initial-submission loop: it runs while
`next_to_submit < min(n_cores, len(pending_batches))`, hence exactly
`min n_cores pending.length` times from cursor `0`. -/
def run_init (status_col n_cores : Nat) (pending : List (Nat × List String))
    (times : Nat → String) (g : Grid) : EngineState :=
  init_submits status_col pending times (min n_cores pending.length) (init_state g)

/-- The main processing loop (step 4.5): completions arrive in an order
chosen by the environment and are handled one at a time. -/
def run_events (status_col : Nat) (pending : List (Nat × List String)) (times : Nat → String) :
    List (Nat × CompletionResult) → EngineState → EngineState
  | [], s => s
  | e :: es, s =>
    run_events status_col pending times es
      (process_completion status_col pending (times s.nextToSubmit) e.1 e.2 s)

/-- The whole of `main` after configuration: header writes
(`ensure_status_columns`), the recovery reset, batch construction with
range filtering, the pending filter, and the scheduling loop, for a sheet
with `nRows` data rows.  An uncaught `TypeError` from the range comparison
aborts the run (`Except.error`). -/
def engine_main (input_col_count cores : Nat) (range? : Option (String × String))
    (nRows : Nat) (g0 : Grid) (times : Nat → String)
    (events : List (Nat × CompletionResult)) : Except Unit EngineState :=
  let sc := input_col_count + 1
  let gH := applyRowWrites g0 1 (writes_fields sc STATUS_COL_HEADERS)
  let g1 := reset_grid sc (sheet_rows nRows) gH
  match mk_batches input_col_count range? g1 (sheet_rows nRows) with
  | .error e => .error e
  | .ok batches =>
    let pending := pending_batches_of g1 sc batches
    .ok (run_events sc pending times events
      (run_init sc (find_available_cores cores) pending times g1))

/-- Loop invariant of the scheduler: the cursor counts exactly the
processed and the in-flight work, at most `N` executions are in flight,
and while batches remain unsubmitted the pool is full. -/
def EngineInv (N total : Nat) (s : EngineState) : Prop :=
  s.nextToSubmit = s.doneCount + s.inFlight.length ∧
  s.inFlight.length ≤ N ∧
  s.nextToSubmit ≤ total ∧
  (s.nextToSubmit < total → s.inFlight.length = N)

theorem setCell_same (g : Grid) (r c : Nat) (v : String) : setCell g r c v r c = some v := by
  simp [setCell]

theorem setCell_other (g : Grid) (r c : Nat) (v : String) (r' c' : Nat)
    (h : r' ≠ r ∨ c' ≠ c) : setCell g r c v r' c' = g r' c' := by
  unfold setCell
  have hne : ¬(r' = r ∧ c' = c) := by tauto
  simp [hne]

theorem writes_fields_length (base : Nat) (fs : List String) :
    (writes_fields base fs).length = fs.length := by
  induction fs generalizing base with
  | nil => rfl
  | cons f fs ih => simp [writes_fields, ih]

theorem writes_fields_col_bounds (base : Nat) (fs : List String) :
    ∀ p ∈ writes_fields base fs, base ≤ p.1 ∧ p.1 < base + fs.length := by
  induction fs generalizing base with
  | nil => intro p hp; cases hp
  | cons f fs ih =>
    intro p hp
    rcases List.mem_cons.mp hp with h | h
    · subst h; simp
    · have := ih (base + 1) p h
      constructor <;> [omega; (simp only [List.length_cons]; omega)]

theorem writes_fields_getD (base : Nat) (fs : List String) (i : Nat) (h : i < fs.length) :
    (writes_fields base fs).getD i (0, "") = (base + i, fs.getD i "") := by
  induction fs generalizing base i with
  | nil => simp at h
  | cons f fs ih =>
    cases i with
    | zero => simp [writes_fields]
    | succ j =>
      have hj : j < fs.length := by simpa using h
      have hcol : base + 1 + j = base + (j + 1) := by omega
      have := ih (base + 1) j hj
      simp only [writes_fields, List.getD_cons_succ]
      rw [this, hcol]

theorem applyRowWrites_other_row (g : Grid) (r : Nat) (ws : List (Nat × String))
    (r' c : Nat) (h : r' ≠ r) : applyRowWrites g r ws r' c = g r' c := by
  induction ws generalizing g with
  | nil => rfl
  | cons cv ws ih =>
    show applyRowWrites (setCell g r cv.1 cv.2) r ws r' c = g r' c
    rw [ih]
    exact setCell_other _ _ _ _ _ _ (Or.inl h)

theorem applyRowWrites_not_written (g : Grid) (r : Nat) (ws : List (Nat × String)) (c : Nat)
    (h : ∀ p ∈ ws, p.1 ≠ c) : applyRowWrites g r ws r c = g r c := by
  induction ws generalizing g with
  | nil => rfl
  | cons cv ws ih =>
    show applyRowWrites (setCell g r cv.1 cv.2) r ws r c = g r c
    rw [ih _ (fun p hp => h p (List.mem_cons_of_mem _ hp))]
    refine setCell_other _ _ _ _ _ _ (Or.inr ?_)
    exact fun hc => h cv (List.mem_cons_self _ _) hc.symm

theorem applyRowWrites_writes_fields_at (g : Grid) (r base : Nat) (fs : List String)
    (i : Nat) (h : i < fs.length) :
    applyRowWrites g r (writes_fields base fs) r (base + i) = some (fs.getD i "") := by
  induction fs generalizing g base i with
  | nil => simp at h
  | cons f fs ih =>
    show applyRowWrites (setCell g r base f) r (writes_fields (base + 1) fs) r (base + i)
      = some ((f :: fs).getD i "")
    cases i with
    | zero =>
      rw [applyRowWrites_not_written]
      · simpa using setCell_same g r base f
      · intro p hp
        have := writes_fields_col_bounds (base + 1) fs p hp
        omega
    | succ j =>
      have hcol : base + (j + 1) = (base + 1) + j := by omega
      have hj : j < fs.length := by simpa using h
      rw [hcol, ih _ _ _ hj]
      simp

theorem reset_grid_apply (sc : Nat) (rows : List Nat) (g : Grid) (r c : Nat) :
    reset_grid sc rows g r c =
      if r ∈ rows ∧ c = sc ∧ isCompletedStr (pyStr (g r sc)) = false then some "pending"
      else g r c := by
  induction rows generalizing g with
  | nil => simp [reset_grid]
  | cons r0 rest ih =>
    show reset_grid sc rest
      (if isCompletedStr (pyStr (g r0 sc)) then g else setCell g r0 sc "pending") r c = _
    by_cases h0 : isCompletedStr (pyStr (g r0 sc)) = true
    · rw [if_pos h0, ih]
      by_cases hr : r = r0
      · subst hr
        simp [h0]
      · have hm : r ∈ r0 :: rest ↔ r ∈ rest := by simp [List.mem_cons, hr]
        simp only [hm]
    · rw [if_neg h0, ih]
      by_cases hr : r = r0
      · subst hr
        have hsc : setCell g r sc "pending" r sc = some "pending" := setCell_same g r sc "pending"
        by_cases hc : c = sc
        · subst hc
          have hpend : isCompletedStr (pyStr (some "pending")) = false := by decide
          simp only [hsc, hpend, setCell_same]
          simp [h0]
        · have hcell : setCell g r sc "pending" r c = g r c :=
            setCell_other _ _ _ _ _ _ (Or.inr hc)
          simp [hsc, hcell, hc]
      · have hcell : ∀ c', setCell g r0 sc "pending" r c' = g r c' := fun c' =>
          setCell_other _ _ _ _ _ _ (Or.inl hr)
        have hm : r ∈ r0 :: rest ↔ r ∈ rest := by simp [List.mem_cons, hr]
        simp only [hcell, hm]

theorem string_append_ne_empty (s t : String) (h : s ≠ "") : s ++ t ≠ "" := by
  intro he
  apply h
  cases s with
  | mk a =>
    cases t with
    | mk b =>
      have hd : a ++ b = [] := congrArg String.data he
      have ha : a = [] := (List.append_eq_nil.mp hd).1
      simp [ha]

theorem submit_next_counts (sc : Nat) (pending : List (Nat × List String)) (t : String)
    (s : EngineState) (h : s.nextToSubmit < pending.length) :
    (submit_next sc pending t s).nextToSubmit = s.nextToSubmit + 1 ∧
    (submit_next sc pending t s).inFlight.length = s.inFlight.length + 1 ∧
    (submit_next sc pending t s).doneCount = s.doneCount ∧
    (submit_next sc pending t s).execCount = s.execCount + 1 := by
  obtain ⟨rb, hrb⟩ : ∃ rb, pending[s.nextToSubmit]? = some rb := by
    cases hg : pending[s.nextToSubmit]? with
    | none =>
      have := List.getElem?_eq_none_iff.mp hg
      omega
    | some rb => exact ⟨rb, rfl⟩
  simp [submit_next, hrb]

theorem init_submits_counts (sc : Nat) (pending : List (Nat × List String))
    (times : Nat → String) :
    ∀ (k : Nat) (s : EngineState), s.nextToSubmit + k ≤ pending.length →
      (init_submits sc pending times k s).nextToSubmit = s.nextToSubmit + k ∧
      (init_submits sc pending times k s).inFlight.length = s.inFlight.length + k ∧
      (init_submits sc pending times k s).doneCount = s.doneCount ∧
      (init_submits sc pending times k s).execCount = s.execCount + k := by
  intro k
  induction k with
  | zero => intro s _; simp [init_submits]
  | succ k ih =>
    intro s h
    have hlt : s.nextToSubmit < pending.length := by omega
    obtain ⟨h1, h2, h3, h4⟩ :=
      submit_next_counts sc pending (times s.nextToSubmit) s hlt
    have hk : (submit_next sc pending (times s.nextToSubmit) s).nextToSubmit + k
        ≤ pending.length := by omega
    obtain ⟨g1, g2, g3, g4⟩ := ih (submit_next sc pending (times s.nextToSubmit) s) hk
    have hstep : init_submits sc pending times (k + 1) s
        = init_submits sc pending times k (submit_next sc pending (times s.nextToSubmit) s) :=
      rfl
    rw [hstep]
    refine ⟨?_, ?_, ?_, ?_⟩ <;> omega

theorem run_init_counts (sc n_cores : Nat) (pending : List (Nat × List String))
    (times : Nat → String) (g : Grid) :
    (run_init sc n_cores pending times g).nextToSubmit = min n_cores pending.length ∧
    (run_init sc n_cores pending times g).inFlight.length = min n_cores pending.length ∧
    (run_init sc n_cores pending times g).doneCount = 0 ∧
    (run_init sc n_cores pending times g).execCount = min n_cores pending.length := by
  have e1 : (init_state g).nextToSubmit = 0 := rfl
  have e2 : (init_state g).inFlight.length = 0 := rfl
  have e3 : (init_state g).doneCount = 0 := rfl
  have e4 : (init_state g).execCount = 0 := rfl
  have h : (init_state g).nextToSubmit + min n_cores pending.length ≤ pending.length := by
    rw [e1]
    omega
  obtain ⟨h1, h2, h3, h4⟩ :=
    init_submits_counts sc pending times (min n_cores pending.length) (init_state g) h
  rw [e1] at h1
  rw [e2] at h2
  rw [e4] at h4
  unfold run_init
  exact ⟨by omega, by omega, by omega, by omega⟩

theorem run_init_inv (sc n_cores : Nat) (pending : List (Nat × List String))
    (times : Nat → String) (g : Grid) :
    EngineInv n_cores pending.length (run_init sc n_cores pending times g) := by
  obtain ⟨h1, h2, h3, h4⟩ := run_init_counts sc n_cores pending times g
  refine ⟨by omega, by omega, by omega, fun h => by omega⟩

theorem process_completion_inv (n_cores sc : Nat) (pending : List (Nat × List String))
    (t : String) (row : Nat) (st en out : String) (s : EngineState)
    (h : EngineInv n_cores pending.length s) :
    EngineInv n_cores pending.length
      (process_completion sc pending t row (.normal st en out) s) := by
  obtain ⟨h1, h2, h3, h4⟩ := h
  unfold process_completion
  by_cases hmem : row ∈ s.inFlight
  · have herase : (s.inFlight.erase row).length + 1 = s.inFlight.length :=
      List.length_erase_add_one hmem
    have r1 : (reconcile_normal sc row st en out s).nextToSubmit = s.nextToSubmit := rfl
    have r2 : (reconcile_normal sc row st en out s).inFlight.length
        = (s.inFlight.erase row).length := rfl
    have r3 : (reconcile_normal sc row st en out s).doneCount = s.doneCount + 1 := rfl
    have r4 : (reconcile_normal sc row st en out s).execCount = s.execCount := rfl
    simp only [if_pos hmem]
    by_cases hnext : s.nextToSubmit < pending.length
    · have hN := h4 hnext
      simp only [if_pos hnext]
      obtain ⟨k1, k2, k3, k4⟩ :=
        submit_next_counts sc pending t (reconcile_normal sc row st en out s)
          (by rw [r1]; exact hnext)
      rw [r1] at k1
      rw [r2] at k2
      rw [r3] at k3
      refine ⟨by omega, by omega, by omega, fun hlt => by omega⟩
    · simp only [if_neg hnext]
      refine ⟨?_, ?_, ?_, fun hlt => ?_⟩
      · rw [r1, r2, r3]
        omega
      · rw [r2]
        omega
      · rw [r1]
        omega
      · rw [r1] at hlt
        exact absurd hlt hnext
  · simp only [if_neg hmem]
    exact ⟨h1, h2, h3, h4⟩

theorem run_events_inv (n_cores sc : Nat) (pending : List (Nat × List String))
    (times : Nat → String) :
    ∀ (events : List (Nat × CompletionResult)) (s : EngineState),
      (∀ e ∈ events, (e.2).isNormal = true) →
      EngineInv n_cores pending.length s →
      EngineInv n_cores pending.length (run_events sc pending times events s) := by
  intro events
  induction events with
  | nil => intro s _ h; exact h
  | cons e es ih =>
    intro s hnorm h
    have hhead : (e.2).isNormal = true := hnorm e (List.mem_cons_self _ _)
    obtain ⟨row, res⟩ := e
    cases res with
    | raised => simp [CompletionResult.isNormal] at hhead
    | normal st en out =>
      show EngineInv n_cores pending.length
        (run_events sc pending times es
          (process_completion sc pending (times s.nextToSubmit) row (.normal st en out) s))
      exact ih _ (fun e he => hnorm e (List.mem_cons_of_mem _ he))
        (process_completion_inv n_cores sc pending (times s.nextToSubmit) row st en out s h)

theorem inv_inflight_eq_min (n_cores total : Nat) (s : EngineState)
    (h : EngineInv n_cores total s) :
    s.inFlight.length = min n_cores (total - s.doneCount) := by
  obtain ⟨h1, h2, h3, h4⟩ := h
  rcases Nat.lt_or_ge s.nextToSubmit total with hlt | hge
  · have := h4 hlt
    omega
  · omega

theorem run_events_empty_inflight (sc : Nat) (pending : List (Nat × List String))
    (times : Nat → String) :
    ∀ (events : List (Nat × CompletionResult)) (s : EngineState), s.inFlight = [] →
      run_events sc pending times events s = s := by
  intro events
  induction events with
  | nil => intro s _; rfl
  | cons e es ih =>
    intro s h
    have hstep : process_completion sc pending (times s.nextToSubmit) e.1 e.2 s = s := by
      unfold process_completion
      rw [h]
      simp
    show run_events sc pending times es
      (process_completion sc pending (times s.nextToSubmit) e.1 e.2 s) = s
    rw [hstep]
    exact ih s h

theorem mk_batches_sound (icc : Nat) (range? : Option (String × String)) (g : Grid) :
    ∀ (rows : List Nat) (bs : List (Nat × List String)),
      mk_batches icc range? g rows = .ok bs →
      ∀ p ∈ bs, p.1 ∈ rows ∧ p.2 = mk_batch_inputs icc g p.1 ∧
        (∀ rg, range? = some rg →
          include_case rg (effective_case_id p.1 p.2) = .ok true) := by
  intro rows
  induction rows with
  | nil =>
    intro bs hok p hp
    have hbs : bs = [] := by
      have h : Except.ok ([] : List (Nat × List String)) = Except.ok bs := hok
      cases h
      rfl
    subst hbs
    cases hp
  | cons r rest ih =>
    intro bs hok p hp
    have hbody : mk_batches icc range? g (r :: rest) =
        (match (match range? with
                | none => Except.ok true
                | some rg => include_case rg (effective_case_id r (mk_batch_inputs icc g r))) with
         | .error e => .error e
         | .ok inc =>
           match mk_batches icc range? g rest with
           | .error e => .error e
           | .ok tl => .ok (if inc then (r, mk_batch_inputs icc g r) :: tl else tl)) := rfl
    rw [hbody] at hok
    cases hincE : (match range? with
        | none => Except.ok true
        | some rg => include_case rg (effective_case_id r (mk_batch_inputs icc g r))) with
    | error e =>
      rw [hincE] at hok
      cases hok
    | ok inc =>
      rw [hincE] at hok
      cases htl : mk_batches icc range? g rest with
      | error e =>
        rw [htl] at hok
        cases hok
      | ok tl =>
        rw [htl] at hok
        have hbs : bs = if inc then (r, mk_batch_inputs icc g r) :: tl else tl := by
          cases hok
          rfl
        subst hbs
        have htail : ∀ q ∈ tl, q.1 ∈ r :: rest ∧ q.2 = mk_batch_inputs icc g q.1 ∧
            (∀ rg, range? = some rg →
              include_case rg (effective_case_id q.1 q.2) = .ok true) := by
          intro q hq
          obtain ⟨hmem, hbi, hic⟩ := ih tl htl q hq
          exact ⟨List.mem_cons_of_mem _ hmem, hbi, hic⟩
        cases inc with
        | false =>
          rw [if_neg (by simp)] at hp
          exact htail p hp
        | true =>
          rw [if_pos rfl] at hp
          rcases List.mem_cons.mp hp with hpe | hpe
          · subst hpe
            refine ⟨List.mem_cons_self _ _, rfl, fun rg hrg => ?_⟩
            rw [hrg] at hincE
            exact hincE
          · exact htail p hpe

theorem output_writes_col_ge (sc : Nat) (out : String) :
    ∀ p ∈ output_writes sc out, sc + 3 ≤ p.1 := by
  intro p hp
  unfold output_writes at hp
  by_cases h : out = ""
  · rw [if_neg (by simp [h])] at hp
    rcases List.mem_cons.mp hp with he | he
    · subst he; simp
    · cases he
  · rw [if_pos h] at hp
    exact (writes_fields_col_bounds _ _ p hp).1

theorem reconcile_normal_grid (sc row : Nat) (st en out : String) (s : EngineState) :
    (reconcile_normal sc row st en out s).grid row sc = some st ∧
    (reconcile_normal sc row st en out s).grid row (sc + 2) = some en ∧
    (reconcile_normal sc row st en out s).grid row (sc + 1) = s.grid row (sc + 1) ∧
    (∀ r c, r ≠ row → (reconcile_normal sc row st en out s).grid r c = s.grid r c) := by
  have hbase : ∀ c, (∀ p ∈ output_writes sc out, p.1 ≠ c) →
      (reconcile_normal sc row st en out s).grid row c
        = setCell (setCell s.grid row sc st) row (sc + 2) en row c := fun c hc =>
    applyRowWrites_not_written _ _ _ _ hc
  refine ⟨?_, ?_, ?_, ?_⟩
  · rw [hbase sc (fun p hp => by have := output_writes_col_ge sc out p hp; omega)]
    rw [setCell_other _ _ _ _ _ _ (Or.inr (by omega))]
    exact setCell_same _ _ _ _
  · rw [hbase (sc + 2) (fun p hp => by have := output_writes_col_ge sc out p hp; omega)]
    exact setCell_same _ _ _ _
  · rw [hbase (sc + 1) (fun p hp => by have := output_writes_col_ge sc out p hp; omega)]
    rw [setCell_other _ _ _ _ _ _ (Or.inr (by omega))]
    exact setCell_other _ _ _ _ _ _ (Or.inr (by omega))
  · intro r c hr
    show applyRowWrites _ row _ r c = _
    rw [applyRowWrites_other_row _ _ _ _ _ hr]
    rw [setCell_other _ _ _ _ _ _ (Or.inl hr), setCell_other _ _ _ _ _ _ (Or.inl hr)]

theorem reconcile_raised_grid (sc row : Nat) (s : EngineState) :
    (reconcile_raised sc row s).grid row sc = some "error" ∧
    (∀ r c, r ≠ row ∨ c ≠ sc → (reconcile_raised sc row s).grid r c = s.grid r c) := by
  refine ⟨setCell_same _ _ _ _, fun r c h => setCell_other _ _ _ _ _ _ h⟩

theorem submit_next_grid (sc : Nat) (pending : List (Nat × List String)) (t : String)
    (s : EngineState) (rb : Nat × List String) (hrb : pending.get? s.nextToSubmit = some rb) :
    (submit_next sc pending t s).grid rb.1 sc = some "running" ∧
    (submit_next sc pending t s).grid rb.1 (sc + 1) = some t ∧
    (∀ r c, r ≠ rb.1 → (submit_next sc pending t s).grid r c = s.grid r c) ∧
    (∀ c, c ≠ sc → c ≠ sc + 1 → (submit_next sc pending t s).grid rb.1 c = s.grid rb.1 c) := by
  have hs : submit_next sc pending t s =
      { grid := setCell (setCell s.grid rb.1 sc "running") rb.1 (sc + 1) t
        nextToSubmit := s.nextToSubmit + 1
        inFlight := rb.1 :: s.inFlight
        doneCount := s.doneCount
        execCount := s.execCount + 1 } := by
    unfold submit_next
    rw [hrb]
  rw [hs]
  refine ⟨?_, ?_, ?_, ?_⟩
  · show setCell (setCell s.grid rb.1 sc "running") rb.1 (sc + 1) t rb.1 sc = _
    rw [setCell_other _ _ _ _ _ _ (Or.inr (by omega))]
    exact setCell_same _ _ _ _
  · exact setCell_same _ _ _ _
  · intro r c hr
    show setCell (setCell s.grid rb.1 sc "running") rb.1 (sc + 1) t r c = _
    rw [setCell_other _ _ _ _ _ _ (Or.inl hr)]
    exact setCell_other _ _ _ _ _ _ (Or.inl hr)
  · intro c h1 h2
    show setCell (setCell s.grid rb.1 sc "running") rb.1 (sc + 1) t rb.1 c = _
    rw [setCell_other _ _ _ _ _ _ (Or.inr h2)]
    exact setCell_other _ _ _ _ _ _ (Or.inr h1)

theorem completed_not_pending (s : String) (h : isCompletedStr s = true) :
    isPendingStr s = false := by
  have he : pyLower (pyStrip s) = "completed" := by
    have := of_decide_eq_true (by simpa [isCompletedStr] using h)
    simpa [isCompletedStr] using h
  unfold isPendingStr
  rw [he]
  decide

/-- C1: the claim states that on load only `running` is reset to `pending`
while `error`/`partial_error` survive unretried.  False: the reset loop
rewrites every non-`completed` status.  A store whose single Case is
`error` comes out `pending` and passes the pending filter (is retried). -/
theorem claim_C1_counterexample :
    reset_grid 4 [2] (fun _ _ => some "error") 2 4 = some "pending" ∧
    some "pending" ≠ some "error" ∧
    pending_batches_of (reset_grid 4 [2] (fun _ _ => some "error")) 4 [(2, [])]
      = [(2, [])] := by
  decide

/-- C1 (amended): on load every Case whose status cell does not read
`completed` — `running`, `error`, `p-error`, blank alike — is rewritten to
`pending`, nothing else changes, and every such Case passes the pending
filter, so it is scheduled again in the new run. -/
theorem claim_C1_load_reset (sc : Nat) (rows : List Nat) (g : Grid) :
    (∀ r c, reset_grid sc rows g r c =
      if r ∈ rows ∧ c = sc ∧ isCompletedStr (pyStr (g r sc)) = false then some "pending"
      else g r c) ∧
    (∀ r, r ∈ rows → isCompletedStr (pyStr (g r sc)) = false →
      isPendingStr (pyStr (reset_grid sc rows g r sc)) = true) ∧
    (∀ (bs : List (Nat × List String)) (r : Nat) (bi : List String),
      (r, bi) ∈ bs → r ∈ rows → isCompletedStr (pyStr (g r sc)) = false →
      (r, bi) ∈ pending_batches_of (reset_grid sc rows g) sc bs) := by
  have happ := reset_grid_apply sc rows g
  have hval : ∀ r, r ∈ rows → isCompletedStr (pyStr (g r sc)) = false →
      reset_grid sc rows g r sc = some "pending" := by
    intro r hr hnc
    rw [happ r sc, if_pos ⟨hr, rfl, hnc⟩]
  refine ⟨happ, ?_, ?_⟩
  · intro r hr hnc
    rw [hval r hr hnc]
    decide
  · intro bs r bi hmem hr hnc
    refine List.mem_filter.mpr ⟨hmem, ?_⟩
    show isPendingStr (pyStr (reset_grid sc rows g r sc)) = true
    rw [hval r hr hnc]
    decide

/-- C1 witness: an `error` status cell is reset and is pending afterwards. -/
theorem claim_C1_load_reset_witness :
    isPendingStr (pyStr (reset_grid 4 [2] (fun _ _ => some "error") 2 4)) = true :=
  (claim_C1_load_reset 4 [2] (fun _ _ => some "error")).2.1 2 (by decide) (by decide)

/-- C3: the claim quotes the success-without-artifact message as
"no output produced despite success"; the code writes
"No output file found after successful execution". -/
theorem claim_C3_counterexample :
    (process_batch_result 2 .success false "" "s" "e").status = "error" ∧
    (process_batch_result 2 .success false "" "s" "e").error_msg
      = "No output file found after successful execution" ∧
    (process_batch_result 2 .success false "" "s" "e").error_msg
      ≠ "no output produced despite success" := by
  refine ⟨rfl, rfl, by decide⟩

/-- C3 (amended): the outcome classification is the exhaustive truth table
over (program succeeded, artifact present) — completed / error with the
message "No output file found after successful execution" / p-error /
error — and the error message is non-empty exactly when the status is not
`completed`. -/
theorem claim_C3_classification (row : Nat) (exe : ExeOutcome) (fe : Bool)
    (line startT endT : String) :
    ((run_exe_on_batch exe).1 = true → fe = true →
      (process_batch_result row exe fe line startT endT).status = "completed" ∧
      (process_batch_result row exe fe line startT endT).output = line ∧
      (process_batch_result row exe fe line startT endT).error_msg = "") ∧
    ((run_exe_on_batch exe).1 = true → fe = false →
      (process_batch_result row exe fe line startT endT).status = "error" ∧
      (process_batch_result row exe fe line startT endT).output = "" ∧
      (process_batch_result row exe fe line startT endT).error_msg
        = "No output file found after successful execution") ∧
    ((run_exe_on_batch exe).1 = false → fe = true →
      (process_batch_result row exe fe line startT endT).status = "p-error" ∧
      (process_batch_result row exe fe line startT endT).output = line ∧
      (process_batch_result row exe fe line startT endT).error_msg
        = (run_exe_on_batch exe).2) ∧
    ((run_exe_on_batch exe).1 = false → fe = false →
      (process_batch_result row exe fe line startT endT).status = "error" ∧
      (process_batch_result row exe fe line startT endT).output = "" ∧
      (process_batch_result row exe fe line startT endT).error_msg
        = (run_exe_on_batch exe).2) ∧
    ((process_batch_result row exe fe line startT endT).error_msg ≠ "" ↔
      (process_batch_result row exe fe line startT endT).status ≠ "completed") := by
  have hmsg1 : ∀ rc : Int, "Process failed with exit code " ++ toString rc ≠ "" :=
    fun rc => string_append_ne_empty _ _ (by decide)
  have hmsg2 : ∀ m : String, "Unexpected error: " ++ m ≠ "" :=
    fun m => string_append_ne_empty _ _ (by decide)
  cases exe with
  | success =>
    cases fe with
    | true =>
      refine ⟨?_, ?_, ?_, ?_, ?_⟩
      · exact fun _ _ => ⟨rfl, rfl, rfl⟩
      · exact fun _ h => nomatch h
      · exact fun h => nomatch h
      · exact fun h => nomatch h
      · exact ⟨fun h => absurd rfl h, fun h => absurd rfl h⟩
    | false =>
      refine ⟨?_, ?_, ?_, ?_, ?_⟩
      · exact fun _ h => nomatch h
      · exact fun _ _ => ⟨rfl, rfl, rfl⟩
      · exact fun h => nomatch h
      · exact fun h => nomatch h
      · exact ⟨fun _ => show ("error" : String) ≠ "completed" by decide,
          fun _ => show ("No output file found after successful execution" : String) ≠ ""
            by decide⟩
  | calledProcessError rc =>
    cases fe with
    | true =>
      refine ⟨?_, ?_, ?_, ?_, ?_⟩
      · exact fun h => nomatch h
      · exact fun h => nomatch h
      · exact fun _ _ => ⟨rfl, rfl, rfl⟩
      · exact fun _ h => nomatch h
      · exact ⟨fun _ => show ("p-error" : String) ≠ "completed" by decide, fun _ => hmsg1 rc⟩
    | false =>
      refine ⟨?_, ?_, ?_, ?_, ?_⟩
      · exact fun h => nomatch h
      · exact fun h => nomatch h
      · exact fun _ h => nomatch h
      · exact fun _ _ => ⟨rfl, rfl, rfl⟩
      · exact ⟨fun _ => show ("error" : String) ≠ "completed" by decide, fun _ => hmsg1 rc⟩
  | otherError m =>
    cases fe with
    | true =>
      refine ⟨?_, ?_, ?_, ?_, ?_⟩
      · exact fun h => nomatch h
      · exact fun h => nomatch h
      · exact fun _ _ => ⟨rfl, rfl, rfl⟩
      · exact fun _ h => nomatch h
      · exact ⟨fun _ => show ("p-error" : String) ≠ "completed" by decide, fun _ => hmsg2 m⟩
    | false =>
      refine ⟨?_, ?_, ?_, ?_, ?_⟩
      · exact fun h => nomatch h
      · exact fun h => nomatch h
      · exact fun _ h => nomatch h
      · exact fun _ _ => ⟨rfl, rfl, rfl⟩
      · exact ⟨fun _ => show ("error" : String) ≠ "completed" by decide, fun _ => hmsg2 m⟩

/-- C3 witness: a failed run with an artifact present classifies as
`p-error` with a non-empty error message. -/
theorem claim_C3_classification_witness :
    (process_batch_result 2 (.calledProcessError 7) true "a" "s" "e").status = "p-error" ∧
    (process_batch_result 2 (.calledProcessError 7) true "a" "s" "e").error_msg ≠ "" := by
  have h := claim_C3_classification 2 (.calledProcessError 7) true "a" "s" "e"
  exact ⟨(h.2.2.1 rfl rfl).1, h.2.2.2.2.mpr (by decide)⟩

/-- C4: a non-empty artifact line is tab-split and each field lands in its
own consecutive output column, overwriting it; columns past the written
fields and cells of other rows are untouched; an absent/empty line writes
the empty string into the first output column only.  In particular
"a" tab "b" tab "c" gives fields a, b, c in order. -/
theorem claim_C4_output_field_mapping (sc : Nat) (g : Grid) (row : Nat) (out : String) :
    (out ≠ "" →
      (output_writes sc out).length = (pySplitTab out).length ∧
      (∀ i, i < (pySplitTab out).length →
        applyRowWrites g row (output_writes sc out) row (sc + 3 + i)
          = some ((pySplitTab out).getD i "")) ∧
      (∀ c, c < sc + 3 ∨ sc + 3 + (pySplitTab out).length ≤ c →
        applyRowWrites g row (output_writes sc out) row c = g row c)) ∧
    (out = "" →
      applyRowWrites g row (output_writes sc out) row (sc + 3) = some "" ∧
      (∀ c, c ≠ sc + 3 → applyRowWrites g row (output_writes sc out) row c = g row c)) ∧
    (∀ r c, r ≠ row → applyRowWrites g row (output_writes sc out) r c = g r c) ∧
    pySplitTab "a\tb\tc" = ["a", "b", "c"] := by
  refine ⟨?_, ?_, ?_, by decide⟩
  · intro hne
    have hw : output_writes sc out = writes_fields (sc + 3) (pySplitTab out) := by
      unfold output_writes
      rw [if_pos hne]
    refine ⟨?_, ?_, ?_⟩
    · rw [hw, writes_fields_length]
    · intro i hi
      rw [hw]
      exact applyRowWrites_writes_fields_at g row (sc + 3) (pySplitTab out) i hi
    · intro c hc
      rw [hw]
      refine applyRowWrites_not_written _ _ _ _ (fun p hp => ?_)
      have := writes_fields_col_bounds (sc + 3) (pySplitTab out) p hp
      omega
  · intro he
    have hw : output_writes sc out = [(sc + 3, "")] := by
      unfold output_writes
      rw [if_neg (by simp [he])]
    refine ⟨?_, ?_⟩
    · rw [hw]
      exact setCell_same _ _ _ _
    · intro c hc
      rw [hw]
      show setCell g row (sc + 3) "" row c = g row c
      exact setCell_other _ _ _ _ _ _ (Or.inr hc)
  · intro r c hr
    exact applyRowWrites_other_row _ _ _ _ _ hr

/-- C4 witness: the three-field artifact line populates three columns. -/
theorem claim_C4_output_field_mapping_witness :
    ("a\tb\tc" : String) ≠ "" ∧
    (output_writes 5 "a\tb\tc").length = (pySplitTab "a\tb\tc").length :=
  ⟨by decide,
    ((claim_C4_output_field_mapping 5 (fun _ _ => none) 2 "a\tb\tc").1 (by decide)).1⟩

/-- C5: the claim puts the first output field in the column right after
the `Output` header column (`next_after_status`).  False: the write loop
starts at `status_col + 3`, which is the `Output` column itself. -/
theorem claim_C5_counterexample :
    output_writes (ensure_status_columns 3).status "a"
      = [((ensure_status_columns 3).output, "a")] ∧
    (ensure_status_columns 3).output = 6 ∧
    (ensure_status_columns 3).next_after_status = 7 ∧
    (6 : Nat) ≠ 7 := by
  decide

/-- C5 (amended): the parsed output fields occupy contiguous columns
starting at the `Output` header column itself — the column immediately
after the three columns Status, Start Time, End Time — so field `i` lands
in column `output + i` and only the second field reaches
`next_after_status`. -/
theorem claim_C5_output_columns (start_col : Nat) (out : String) (h : out ≠ "") :
    (output_writes (ensure_status_columns start_col).status out).length
      = (pySplitTab out).length ∧
    (∀ i, i < (pySplitTab out).length →
      (output_writes (ensure_status_columns start_col).status out).getD i (0, "")
        = ((ensure_status_columns start_col).output + i, (pySplitTab out).getD i "")) ∧
    (ensure_status_columns start_col).output = start_col + 3 ∧
    (ensure_status_columns start_col).output + 1
      = (ensure_status_columns start_col).next_after_status := by
  have hw : output_writes (ensure_status_columns start_col).status out
      = writes_fields (start_col + 3) (pySplitTab out) := by
    unfold output_writes
    rw [if_pos h]
    rfl
  refine ⟨?_, ?_, rfl, rfl⟩
  · rw [hw, writes_fields_length]
  · intro i hi
    rw [hw]
    exact writes_fields_getD (start_col + 3) (pySplitTab out) i hi

/-- C5 witness: with two fields, the first lands in the `Output` column. -/
theorem claim_C5_output_columns_witness :
    ("x\ty" : String) ≠ "" ∧
    (output_writes (ensure_status_columns 3).status "x\ty").getD 0 (0, "")
      = ((ensure_status_columns 3).output, "x") := by
  refine ⟨by decide, ?_⟩
  have h := (claim_C5_output_columns 3 "x\ty" (by decide)).2.1 0 (by decide)
  simpa using h

theorem mk_batch_inputs_length (icc : Nat) (g : Grid) (r : Nat) :
    (mk_batch_inputs icc g r).length = icc := by
  simp [mk_batch_inputs]

theorem mk_batch_inputs_getD_11 (icc : Nat) (g : Grid) (r : Nat) (h : 11 < icc) :
    (mk_batch_inputs icc g r).getD 11 "" =
      (match g r 12 with
       | some v => v
       | none => "") := by
  unfold mk_batch_inputs
  rw [List.getD_eq_getElem?_getD, List.getElem?_map, List.getElem?_range h]
  rfl

/-- C10: the case id comes from input column index 11 (the 12th input
column); with 11 or fewer configured input columns, or an empty cell
there, it is always the placeholder `UNKNOWN_` followed by the Excel row
number, and the artifact file is then looked up under that placeholder. -/
theorem claim_C10_case_id_selection (icc rowNum : Nat) (g : Grid) :
    (mk_batch_inputs icc g rowNum).length = icc ∧
    (icc ≤ 11 →
      effective_case_id rowNum (mk_batch_inputs icc g rowNum)
        = "UNKNOWN_" ++ toString rowNum) ∧
    (11 < icc → (g rowNum 12 = none ∨ g rowNum 12 = some "") →
      effective_case_id rowNum (mk_batch_inputs icc g rowNum)
        = "UNKNOWN_" ++ toString rowNum) ∧
    (11 < icc → ∀ v, g rowNum 12 = some v → v ≠ "" →
      effective_case_id rowNum (mk_batch_inputs icc g rowNum) = v) ∧
    (icc ≤ 11 →
      output_filename (effective_case_id rowNum (mk_batch_inputs icc g rowNum))
        = "Output" ++ ("UNKNOWN_" ++ toString rowNum) ++ ".txt") := by
  have hlen := mk_batch_inputs_length icc g rowNum
  refine ⟨hlen, ?_, ?_, ?_, ?_⟩
  · intro hle
    unfold effective_case_id
    rw [if_neg]
    rintro ⟨hlt, -⟩
    omega
  · intro hgt hcell
    unfold effective_case_id
    rw [if_neg]
    rintro ⟨-, hne⟩
    rw [mk_batch_inputs_getD_11 icc g rowNum hgt] at hne
    rcases hcell with hc | hc <;> rw [hc] at hne <;> exact hne rfl
  · intro hgt v hv hne
    unfold effective_case_id
    rw [if_pos]
    · rw [mk_batch_inputs_getD_11 icc g rowNum hgt, hv]
    · refine ⟨by omega, ?_⟩
      rw [mk_batch_inputs_getD_11 icc g rowNum hgt, hv]
      exact hne
  · intro hle
    unfold effective_case_id
    rw [if_neg]
    · rfl
    · rintro ⟨hlt, -⟩
      omega

/-- C10 witness: ten input columns always give the placeholder id and the
artifact name derived from it. -/
theorem claim_C10_case_id_selection_witness :
    (10 : Nat) ≤ 11 ∧
    output_filename (effective_case_id 7 (mk_batch_inputs 10 (fun _ _ => some "x") 7))
      = "Output" ++ ("UNKNOWN_" ++ toString 7) ++ ".txt" :=
  ⟨by decide,
    (claim_C10_case_id_selection 10 7 (fun _ _ => some "x")).2.2.2.2 (by decide)⟩

theorem pyChainedLe_error_first (a b c : PyVal) (h : pyLe a b = .error ()) :
    pyChainedLe a b c = .error () := by
  unfold pyChainedLe
  rw [h]

theorem pyChainedLe_ok_first (a b c : PyVal) (bb : Bool) (h : pyLe a b = .ok bb) :
    pyChainedLe a b c = (if bb then pyLe b c else .ok false) := by
  unfold pyChainedLe
  rw [h]

theorem pyChainedLe_int (a b c : Nat) :
    pyChainedLe (.int a) (.int b) (.int c) = .ok (decide (a ≤ b ∧ b ≤ c)) := by
  rw [pyChainedLe_ok_first (.int a) (.int b) (.int c) (decide (a ≤ b)) rfl]
  by_cases h1 : a ≤ b
  · rw [if_pos (decide_eq_true h1)]
    show Except.ok (decide (b ≤ c)) = _
    by_cases h2 : b ≤ c
    · rw [decide_eq_true h2, decide_eq_true ⟨h1, h2⟩]
    · rw [decide_eq_false h2, decide_eq_false (fun hh => h2 hh.2)]
  · rw [if_neg (by simp [h1]), decide_eq_false (fun hh => h1 hh.1)]

theorem pyChainedLe_str (a b c : String) :
    pyChainedLe (.str a) (.str b) (.str c) = .ok (pyStrLe a b && pyStrLe b c) := by
  rw [pyChainedLe_ok_first (.str a) (.str b) (.str c) (pyStrLe a b) rfl]
  cases h1 : pyStrLe a b with
  | false => simp
  | true =>
    rw [if_pos rfl]
    show Except.ok (pyStrLe b c) = _
    simp

theorem pyParse_digit (s : String) (h : pyIsDigit s = true) :
    pyParse s = .int (pyToNat s) := by
  unfold pyParse
  rw [if_pos h]

theorem pyParse_nondigit (s : String) (h : pyIsDigit s = false) :
    pyParse s = .str s := by
  unfold pyParse
  rw [if_neg (by simp [h])]

/-- C6: the claim says a mixed digit/non-digit comparison falls back to
lexicographic string order.  False: the conversion is per-value, the
comparison then mixes `int` and `str` and raises an uncaught `TypeError`
(only `ValueError`/`AttributeError` are caught), where the claim's rule
would simply exclude the Case. -/
theorem claim_C6_counterexample :
    include_case ("a", "b") "10" = .error () ∧
    include_case_claim ("a", "b") "10" = false := by
  decide

/-- C6 (amended): the inclusion test is numeric when the case id and both
bounds are all digit strings and lexicographic when none is; when the
start bound and the case id differ in digitness it raises `TypeError`
(uncaught, aborting the run), and when only the end bound differs it
raises unless the start comparison already fails, which excludes the Case.
Every batch surviving a range filter passed the test; an excluded or
erroring Case is never in the batch list, hence never submitted. -/
theorem claim_C6_range_filtering (s e c : String) :
    (pyIsDigit s = true → pyIsDigit c = true → pyIsDigit e = true →
      include_case (s, e) c
        = .ok (decide (pyToNat s ≤ pyToNat c ∧ pyToNat c ≤ pyToNat e))) ∧
    (pyIsDigit s = false → pyIsDigit c = false → pyIsDigit e = false →
      include_case (s, e) c = .ok (pyStrLe s c && pyStrLe c e)) ∧
    (pyIsDigit s ≠ pyIsDigit c → include_case (s, e) c = .error ()) ∧
    (pyIsDigit s = pyIsDigit c → pyIsDigit e ≠ pyIsDigit c →
      ∃ b, pyLe (pyParse s) (pyParse c) = .ok b ∧
        include_case (s, e) c = (if b then .error () else .ok false)) ∧
    (∀ (icc : Nat) (g : Grid) (rows : List Nat) (bs : List (Nat × List String))
        (rg : String × String),
      mk_batches icc (some rg) g rows = .ok bs →
      ∀ p ∈ bs, include_case rg (effective_case_id p.1 p.2) = .ok true) := by
  have hic : include_case (s, e) c = pyChainedLe (pyParse s) (pyParse c) (pyParse e) := rfl
  refine ⟨?_, ?_, ?_, ?_, ?_⟩
  · intro hs hc he
    rw [hic, pyParse_digit s hs, pyParse_digit c hc, pyParse_digit e he, pyChainedLe_int]
  · intro hs hc he
    rw [hic, pyParse_nondigit s hs, pyParse_nondigit c hc, pyParse_nondigit e he,
      pyChainedLe_str]
  · intro hne
    rw [hic]
    cases hs : pyIsDigit s <;> cases hc : pyIsDigit c
    · rw [hs, hc] at hne
      exact absurd rfl hne
    · rw [pyParse_nondigit s hs, pyParse_digit c hc]
      exact pyChainedLe_error_first _ _ _ rfl
    · rw [pyParse_digit s hs, pyParse_nondigit c hc]
      exact pyChainedLe_error_first _ _ _ rfl
    · rw [hs, hc] at hne
      exact absurd rfl hne
  · intro heq hne
    cases hs : pyIsDigit s <;> cases hc : pyIsDigit c <;> rw [hs, hc] at heq <;>
      try exact absurd heq (by decide)
    · have he : pyIsDigit e = true := by
        cases he' : pyIsDigit e
        · rw [he', hc] at hne
          exact absurd rfl hne
        · rfl
      refine ⟨pyStrLe s c, ?_, ?_⟩
      · rw [pyParse_nondigit s hs, pyParse_nondigit c hc]
        rfl
      · rw [hic, pyParse_nondigit s hs, pyParse_nondigit c hc, pyParse_digit e he,
          pyChainedLe_ok_first (.str s) (.str c) (.int (pyToNat e)) (pyStrLe s c) rfl]
        cases hb : pyStrLe s c
        · simp
        · rw [if_pos rfl, if_pos rfl]
          rfl
    · have he : pyIsDigit e = false := by
        cases he' : pyIsDigit e
        · rfl
        · rw [he', hc] at hne
          exact absurd rfl hne
      refine ⟨decide (pyToNat s ≤ pyToNat c), ?_, ?_⟩
      · rw [pyParse_digit s hs, pyParse_digit c hc]
        rfl
      · rw [hic, pyParse_digit s hs, pyParse_digit c hc, pyParse_nondigit e he,
          pyChainedLe_ok_first (.int (pyToNat s)) (.int (pyToNat c)) (.str e)
            (decide (pyToNat s ≤ pyToNat c)) rfl]
        cases hb : decide (pyToNat s ≤ pyToNat c)
        · simp
        · rw [if_pos rfl, if_pos rfl]
          rfl
  · intro icc g rows bs rg hok p hp
    exact (mk_batches_sound icc (some rg) g rows bs hok p hp).2.2 rg rfl

/-- C6 witness: an all-digit id and bounds compare numerically. -/
theorem claim_C6_range_filtering_witness :
    pyIsDigit "20" = true ∧
    include_case ("20", "30") "25"
      = .ok (decide (pyToNat "20" ≤ pyToNat "25" ∧ pyToNat "25" ≤ pyToNat "30")) :=
  ⟨by decide,
    (claim_C6_range_filtering "20" "30" "25").1 (by decide) (by decide) (by decide)⟩

theorem process_completion_normal_eq (sc : Nat) (pending : List (Nat × List String))
    (t : String) (row : Nat) (st en out : String) (s : EngineState)
    (hmem : row ∈ s.inFlight) :
    process_completion sc pending t row (.normal st en out) s
      = (if s.nextToSubmit < pending.length
          then submit_next sc pending t (reconcile_normal sc row st en out s)
          else reconcile_normal sc row st en out s) := by
  unfold process_completion
  rw [if_pos hmem]

theorem process_completion_raised_eq (sc : Nat) (pending : List (Nat × List String))
    (t : String) (row : Nat) (s : EngineState) (hmem : row ∈ s.inFlight) :
    process_completion sc pending t row .raised s = reconcile_raised sc row s := by
  unfold process_completion
  rw [if_pos hmem]

/-- C2: with `N = max(1, cores - 2)` worker slots the run starts by
submitting `min(N, pending)` Cases; after any sequence of normally
processed completions the in-flight count is at most `N` and equals
`min(N, remaining pending)`; each normally processed completion submits
exactly one replacement while unsubmitted pending Cases remain, none
afterwards. -/
theorem claim_C2_scheduler_bound (cores sc : Nat) (pending : List (Nat × List String))
    (times : Nat → String) (g : Grid) (events : List (Nat × CompletionResult))
    (hnorm : ∀ ev ∈ events, (ev.2).isNormal = true) :
    (run_init sc (find_available_cores cores) pending times g).execCount
      = min (find_available_cores cores) pending.length ∧
    (run_events sc pending times events
        (run_init sc (find_available_cores cores) pending times g)).inFlight.length
      ≤ find_available_cores cores ∧
    (run_events sc pending times events
        (run_init sc (find_available_cores cores) pending times g)).inFlight.length
      = min (find_available_cores cores)
          (pending.length - (run_events sc pending times events
              (run_init sc (find_available_cores cores) pending times g)).doneCount) ∧
    (∀ (s : EngineState) (row : Nat) (st en out : String), row ∈ s.inFlight →
      (process_completion sc pending (times s.nextToSubmit) row (.normal st en out) s).execCount
        = s.execCount + (if s.nextToSubmit < pending.length then 1 else 0)) := by
  have hinv : EngineInv (find_available_cores cores) pending.length
      (run_events sc pending times events
        (run_init sc (find_available_cores cores) pending times g)) :=
    run_events_inv (find_available_cores cores) sc pending times events _ hnorm
      (run_init_inv sc (find_available_cores cores) pending times g)
  refine ⟨(run_init_counts sc (find_available_cores cores) pending times g).2.2.2,
    hinv.2.1, inv_inflight_eq_min _ _ _ hinv, ?_⟩
  intro s row st en out hmem
  rw [process_completion_normal_eq sc pending (times s.nextToSubmit) row st en out s hmem]
  have r1 : (reconcile_normal sc row st en out s).nextToSubmit = s.nextToSubmit := rfl
  have r4 : (reconcile_normal sc row st en out s).execCount = s.execCount := rfl
  by_cases hnext : s.nextToSubmit < pending.length
  · rw [if_pos hnext, if_pos hnext]
    obtain ⟨-, -, -, k4⟩ :=
      submit_next_counts sc pending (times s.nextToSubmit)
        (reconcile_normal sc row st en out s) (by rw [r1]; exact hnext)
    rw [k4, r4]
  · rw [if_neg hnext, if_neg hnext]
    rw [r4]
    omega

/-- C2 witness: five cores give three slots, two pending Cases are both
submitted at start, and after one completion one Case is left in flight. -/
theorem claim_C2_scheduler_bound_witness :
    (∀ ev ∈ ([(2, CompletionResult.normal "completed" "E" "")]
        : List (Nat × CompletionResult)), (ev.2).isNormal = true) ∧
    (run_init 3 (find_available_cores 5) [(2, ["x"]), (3, ["y"])] (fun _ => "T")
        (fun _ _ => some "pending")).execCount
      = min (find_available_cores 5) 2 ∧
    (run_events 3 [(2, ["x"]), (3, ["y"])] (fun _ => "T")
        [(2, CompletionResult.normal "completed" "E" "")]
        (run_init 3 (find_available_cores 5) [(2, ["x"]), (3, ["y"])] (fun _ => "T")
          (fun _ _ => some "pending"))).inFlight.length ≤ find_available_cores 5 := by
  have hnorm : ∀ ev ∈ ([(2, CompletionResult.normal "completed" "E" "")]
      : List (Nat × CompletionResult)), (ev.2).isNormal = true := by decide
  obtain ⟨h1, h2, -⟩ :=
    claim_C2_scheduler_bound 5 3 [(2, ["x"]), (3, ["y"])] (fun _ => "T")
      (fun _ _ => some "pending") [(2, CompletionResult.normal "completed" "E" "")] hnorm
  exact ⟨hnorm, h1, h2⟩

/-- C7: the claim says an exception while processing one completion leaves
the processing of all other Cases unaffected, including continued
submission of remaining pending Cases.  False: the exception handler
`continue`s past the submission step, so the slot is lost.  Concretely:
one worker slot, three pending Cases, the first completion raises — the
run ends with one execution performed and two Cases never submitted. -/
theorem claim_C7_counterexample :
    (run_events 7 [(2, []), (3, []), (4, [])] (fun _ => "T") [(2, CompletionResult.raised)]
      (run_init 7 (find_available_cores 3) [(2, []), (3, []), (4, [])] (fun _ => "T")
        (fun _ _ => some "pending"))).inFlight = [] ∧
    (run_events 7 [(2, []), (3, []), (4, [])] (fun _ => "T") [(2, CompletionResult.raised)]
      (run_init 7 (find_available_cores 3) [(2, []), (3, []), (4, [])] (fun _ => "T")
        (fun _ _ => some "pending"))).execCount = 1 ∧
    (run_events 7 [(2, []), (3, []), (4, [])] (fun _ => "T") [(2, CompletionResult.raised)]
      (run_init 7 (find_available_cores 3) [(2, []), (3, []), (4, [])] (fun _ => "T")
        (fun _ _ => some "pending"))).nextToSubmit = 1 ∧
    (1 : Nat) < 3 ∧
    pyStr ((run_events 7 [(2, []), (3, []), (4, [])] (fun _ => "T") [(2, CompletionResult.raised)]
      (run_init 7 (find_available_cores 3) [(2, []), (3, []), (4, [])] (fun _ => "T")
        (fun _ _ => some "pending"))).grid 3 7) = "pending" := by
  refine ⟨?_, ?_, ?_, by omega, ?_⟩ <;> decide

/-- C7 (amended): an exception from one Case's completion is caught at the
per-case boundary — the Case is marked `error`, the run is not aborted and
every other in-flight Case stays in flight — but the handler skips the
resubmission step: the cursor and execution count do not advance, so no
replacement Case is submitted for the lost slot. -/
theorem claim_C7_exception_isolation (sc : Nat) (pending : List (Nat × List String))
    (t : String) (row : Nat) (s : EngineState) (h : row ∈ s.inFlight) :
    (process_completion sc pending t row .raised s).grid row sc = some "error" ∧
    (process_completion sc pending t row .raised s).inFlight = s.inFlight.erase row ∧
    (process_completion sc pending t row .raised s).nextToSubmit = s.nextToSubmit ∧
    (process_completion sc pending t row .raised s).execCount = s.execCount ∧
    (process_completion sc pending t row .raised s).doneCount = s.doneCount + 1 ∧
    (∀ r c, r ≠ row ∨ c ≠ sc →
      (process_completion sc pending t row .raised s).grid r c = s.grid r c) := by
  rw [process_completion_raised_eq sc pending t row s h]
  obtain ⟨hg1, hg2⟩ := reconcile_raised_grid sc row s
  exact ⟨hg1, rfl, rfl, rfl, rfl, hg2⟩

/-- C7 witness: a concrete raised completion marks the row `error` and
keeps the cursor where it was. -/
theorem claim_C7_exception_isolation_witness :
    (process_completion 5 [(2, []), (3, [])] "T" 2 .raised
      { grid := fun _ _ => some "running", nextToSubmit := 1, inFlight := [2],
        doneCount := 0, execCount := 1 }).grid 2 5 = some "error" ∧
    (process_completion 5 [(2, []), (3, [])] "T" 2 .raised
      { grid := fun _ _ => some "running", nextToSubmit := 1, inFlight := [2],
        doneCount := 0, execCount := 1 }).nextToSubmit = 1 := by
  have h := claim_C7_exception_isolation 5 [(2, []), (3, [])] "T" 2
    { grid := fun _ _ => some "running", nextToSubmit := 1, inFlight := [2],
      doneCount := 0, execCount := 1 } (by decide)
  exact ⟨h.1, h.2.2.1⟩

/-- C9: the claim says status and end time are written on every
completion, including failures.  False for the exception path: it writes
only the status — here a processed completion (doneCount grows, status
becomes `error`) leaves the end-time cell holding its prior value. -/
theorem claim_C9_counterexample :
    (process_completion 5 [(2, [])] "T" 2 .raised
      { grid := fun _ _ => some "OLD", nextToSubmit := 1, inFlight := [2],
        doneCount := 0, execCount := 1 }).doneCount = 1 ∧
    (process_completion 5 [(2, [])] "T" 2 .raised
      { grid := fun _ _ => some "OLD", nextToSubmit := 1, inFlight := [2],
        doneCount := 0, execCount := 1 }).grid 2 5 = some "error" ∧
    (process_completion 5 [(2, [])] "T" 2 .raised
      { grid := fun _ _ => some "OLD", nextToSubmit := 1, inFlight := [2],
        doneCount := 0, execCount := 1 }).grid 2 7 = some "OLD" ∧
    some "OLD" ≠ some "error" := by
  refine ⟨?_, ?_, ?_, by decide⟩ <;> decide

/-- C9 (amended): a normally delivered completion writes status and end
time and leaves the completing row's start-time cell untouched; the
exception path writes only the status, leaving both timestamps untouched;
`start_time` (and the `running` mark) is written by submission alone. -/
theorem claim_C9_write_effects (sc : Nat) (pending : List (Nat × List String)) (t : String)
    (row : Nat) (st en out : String) (s : EngineState) (hmem : row ∈ s.inFlight)
    (hnext : ∀ rb, pending.get? s.nextToSubmit = some rb → rb.1 ≠ row) :
    ((process_completion sc pending t row (.normal st en out) s).grid row sc = some st ∧
     (process_completion sc pending t row (.normal st en out) s).grid row (sc + 2) = some en ∧
     (process_completion sc pending t row (.normal st en out) s).grid row (sc + 1)
       = s.grid row (sc + 1)) ∧
    ((process_completion sc pending t row .raised s).grid row sc = some "error" ∧
     (process_completion sc pending t row .raised s).grid row (sc + 2)
       = s.grid row (sc + 2) ∧
     (process_completion sc pending t row .raised s).grid row (sc + 1)
       = s.grid row (sc + 1)) ∧
    (∀ rb, pending.get? s.nextToSubmit = some rb →
      (submit_next sc pending t s).grid rb.1 sc = some "running" ∧
      (submit_next sc pending t s).grid rb.1 (sc + 1) = some t) := by
  obtain ⟨hn1, hn2, hn3, hn4⟩ := reconcile_normal_grid sc row st en out s
  obtain ⟨hr1, hr2⟩ := reconcile_raised_grid sc row s
  refine ⟨?_, ?_, ?_⟩
  · rw [process_completion_normal_eq sc pending t row st en out s hmem]
    by_cases hn : s.nextToSubmit < pending.length
    · rw [if_pos hn]
      obtain ⟨rb, hrb⟩ : ∃ rb, pending.get? s.nextToSubmit = some rb := by
        cases hg : pending.get? s.nextToSubmit with
        | none =>
          rw [List.get?_eq_getElem?] at hg
          have := List.getElem?_eq_none_iff.mp hg
          omega
        | some rb => exact ⟨rb, rfl⟩
      have hrow : rb.1 ≠ row := hnext rb hrb
      obtain ⟨-, -, hsub, -⟩ :=
        submit_next_grid sc pending t (reconcile_normal sc row st en out s) rb hrb
      rw [hsub row sc (fun hh => hrow hh.symm), hsub row (sc + 2) (fun hh => hrow hh.symm),
        hsub row (sc + 1) (fun hh => hrow hh.symm)]
      exact ⟨hn1, hn2, hn3⟩
    · rw [if_neg hn]
      exact ⟨hn1, hn2, hn3⟩
  · rw [process_completion_raised_eq sc pending t row s hmem]
    exact ⟨hr1, hr2 row (sc + 2) (Or.inr (by omega)), hr2 row (sc + 1) (Or.inr (by omega))⟩
  · intro rb hrb
    obtain ⟨hg1, hg2, -, -⟩ := submit_next_grid sc pending t s rb hrb
    exact ⟨hg1, hg2⟩

/-- C9 witness: a concrete normal completion writes status and end time
and keeps the start-time cell. -/
theorem claim_C9_write_effects_witness :
    (process_completion 5 [(2, []), (3, [])] "T" 2 (.normal "completed" "EN" "")
      { grid := fun _ _ => some "S", nextToSubmit := 1, inFlight := [2],
        doneCount := 0, execCount := 1 }).grid 2 7 = some "EN" ∧
    (process_completion 5 [(2, []), (3, [])] "T" 2 (.normal "completed" "EN" "")
      { grid := fun _ _ => some "S", nextToSubmit := 1, inFlight := [2],
        doneCount := 0, execCount := 1 }).grid 2 6 = some "S" := by
  have h := claim_C9_write_effects 5 [(2, []), (3, [])] "T" 2 "completed" "EN" ""
    { grid := fun _ _ => some "S", nextToSubmit := 1, inFlight := [2],
      doneCount := 0, execCount := 1 } (by decide)
    (fun rb hrb => by
      have he : ([(2, []), (3, [])] : List (Nat × List String)).get? 1 = some (3, []) := rfl
      rw [he] at hrb
      cases hrb
      decide)
  exact ⟨h.1.2.1, h.1.2.2⟩

theorem sheet_rows_ge_two (n r : Nat) (h : r ∈ sheet_rows n) : 2 ≤ r := by
  unfold sheet_rows at h
  obtain ⟨i, -, hi⟩ := List.mem_range'.mp h
  omega

/-- C8: loading a store in which every Case is already `completed` and
running the engine performs zero executions and leaves every data cell —
statuses, timestamps, output fields — exactly as loaded (only the header
row is rewritten with its fixed captions). -/
theorem claim_C8_resume_idempotent (icc cores nRows : Nat)
    (range? : Option (String × String)) (g0 : Grid) (times : Nat → String)
    (events : List (Nat × CompletionResult))
    (hall : ∀ r ∈ sheet_rows nRows, isCompletedStr (pyStr (g0 r (icc + 1))) = true)
    (sF : EngineState)
    (hok : engine_main icc cores range? nRows g0 times events = .ok sF) :
    sF.execCount = 0 ∧ (∀ r c, r ≠ 1 → sF.grid r c = g0 r c) := by
  have hH : ∀ r c, r ≠ 1 →
      applyRowWrites g0 1 (writes_fields (icc + 1) STATUS_COL_HEADERS) r c = g0 r c :=
    fun r c hr => applyRowWrites_other_row _ _ _ _ _ hr
  have hG1 : ∀ r c,
      reset_grid (icc + 1) (sheet_rows nRows)
        (applyRowWrites g0 1 (writes_fields (icc + 1) STATUS_COL_HEADERS)) r c
      = applyRowWrites g0 1 (writes_fields (icc + 1) STATUS_COL_HEADERS) r c := by
    intro r c
    rw [reset_grid_apply]
    rw [if_neg]
    rintro ⟨hr, -, hnc⟩
    have h2 : 2 ≤ r := sheet_rows_ge_two nRows r hr
    rw [hH r (icc + 1) (by omega)] at hnc
    rw [hall r hr] at hnc
    cases hnc
  simp only [engine_main] at hok
  cases hmb : mk_batches icc range?
      (reset_grid (icc + 1) (sheet_rows nRows)
        (applyRowWrites g0 1 (writes_fields (icc + 1) STATUS_COL_HEADERS)))
      (sheet_rows nRows) with
  | error e =>
    rw [hmb] at hok
    have hok' : (Except.error e : Except Unit EngineState) = Except.ok sF := hok
    cases hok'
  | ok batches =>
    rw [hmb] at hok
    have hok' : Except.ok (run_events (icc + 1)
        (pending_batches_of
          (reset_grid (icc + 1) (sheet_rows nRows)
            (applyRowWrites g0 1 (writes_fields (icc + 1) STATUS_COL_HEADERS)))
          (icc + 1) batches) times events
        (run_init (icc + 1) (find_available_cores cores)
          (pending_batches_of
            (reset_grid (icc + 1) (sheet_rows nRows)
              (applyRowWrites g0 1 (writes_fields (icc + 1) STATUS_COL_HEADERS)))
            (icc + 1) batches) times
          (reset_grid (icc + 1) (sheet_rows nRows)
            (applyRowWrites g0 1 (writes_fields (icc + 1) STATUS_COL_HEADERS)))))
        = Except.ok sF := hok
    have hpend : pending_batches_of
        (reset_grid (icc + 1) (sheet_rows nRows)
          (applyRowWrites g0 1 (writes_fields (icc + 1) STATUS_COL_HEADERS)))
        (icc + 1) batches = [] := by
      apply List.filter_eq_nil_iff.mpr
      intro p hp
      have hmem := (mk_batches_sound _ _ _ _ _ hmb p hp).1
      have h2 : 2 ≤ p.1 := sheet_rows_ge_two nRows p.1 hmem
      have hval : reset_grid (icc + 1) (sheet_rows nRows)
          (applyRowWrites g0 1 (writes_fields (icc + 1) STATUS_COL_HEADERS)) p.1 (icc + 1)
          = g0 p.1 (icc + 1) := by
        rw [hG1, hH p.1 (icc + 1) (by omega)]
      show ¬isPendingStr (pyStr (reset_grid _ _ _ p.1 (icc + 1))) = true
      rw [hval, completed_not_pending _ (hall p.1 hmem)]
      simp
    rw [hpend] at hok'
    have hinit : run_init (icc + 1) (find_available_cores cores) [] times
        (reset_grid (icc + 1) (sheet_rows nRows)
          (applyRowWrites g0 1 (writes_fields (icc + 1) STATUS_COL_HEADERS)))
        = init_state (reset_grid (icc + 1) (sheet_rows nRows)
          (applyRowWrites g0 1 (writes_fields (icc + 1) STATUS_COL_HEADERS))) := by
      unfold run_init
      rw [show min (find_available_cores cores) ([] : List (Nat × List String)).length = 0
        by simp]
      rfl
    rw [hinit, run_events_empty_inflight _ _ _ _ _ rfl] at hok'
    cases hok'
    refine ⟨rfl, ?_⟩
    intro r c hr
    show reset_grid (icc + 1) (sheet_rows nRows)
      (applyRowWrites g0 1 (writes_fields (icc + 1) STATUS_COL_HEADERS)) r c = g0 r c
    rw [hG1, hH r c hr]

/-- C8 witness: a one-row store whose Case is `completed` yields a run
with zero executions. -/
theorem claim_C8_resume_idempotent_witness :
    (∀ r ∈ sheet_rows 1,
      isCompletedStr (pyStr ((fun _ _ => some "completed") r (1 + 1))) = true) ∧
    (engine_main 1 4 none 1 (fun _ _ => some "completed") (fun _ => "T") []).map
      EngineState.execCount = .ok 0 := by
  have hall : ∀ r ∈ sheet_rows 1,
      isCompletedStr (pyStr ((fun _ _ => some "completed") r (1 + 1))) = true := by decide
  refine ⟨hall, ?_⟩
  have hEx : ∃ sF, engine_main 1 4 none 1 (fun _ _ => some "completed") (fun _ => "T") []
      = Except.ok sF := ⟨_, rfl⟩
  obtain ⟨sF, hE⟩ := hEx
  obtain ⟨h1, -⟩ :=
    claim_C8_resume_idempotent 1 4 1 none (fun _ _ => some "completed") (fun _ => "T") []
      hall sF hE
  rw [hE]
  show Except.ok sF.execCount = Except.ok 0
  rw [h1]

end BatchEngine
